import Mathlib

/-!
Shallow embedding of the frame playback engine of `display.py`
(class `DisplayPlayer`), for checking the specification's claims.

Python machine state and side effects are made explicit:
  * exceptions become `Except PyErr`;
  * calls to the outside world (the `PROCESSING_VIDEO` flag read, the
    directory listing, `PIL.Image.open`, `disp.ShowImage`, the stop
    event) are supplied per loop iteration by an `Env` value;
  * observable actions (loads, displays, sleeps, resets) are recorded
    in an event trace.
Line numbers in comments refer to `src/display.py`.
-/

/-- A decoded image; we track only the path it was decoded from
(`PIL.Image.open(frame_path)` in the source). -/
structure Image where
  src : String
deriving Repr, DecidableEq

/-- Python exceptions that the embedded code can raise. -/
inductive PyErr where
  | zeroDivision
  | indexError
deriving Repr, DecidableEq

/-- Python `a % b` on naturals: raises `ZeroDivisionError` when `b = 0`. -/
def pymod (a b : Nat) : Except PyErr Nat :=
  if b = 0 then .error .zeroDivision else .ok (a % b)

/-- Python list indexing `l[i]` (non-negative `i`): raises `IndexError`
when out of range. -/
def pyindex {α : Type} (l : List α) (i : Nat) : Except PyErr α :=
  match l.get? i with
  | some x => .ok x
  | none => .error .indexError

/-- Observable actions of one playback-loop iteration. -/
inductive Event where
  /-- Successful read of `app.config.get('PROCESSING_VIDEO', False)` (line 163). -/
  | checkSignal (value : Bool)
  /-- The read of the processing flag raised; caught at line 191, 1 s sleep. -/
  | signalReadFailed
  /-- The 0.5 s pause-poll sleep (line 175). -/
  | pauseSleep
  /-- Buffer invalidation on the falling edge of the flag (lines 184-187). -/
  | resetOnFallingEdge
  /-- Buffer clearing when frames disappeared (lines 205-208). -/
  | clearOnFramesGone
  /-- The 1 s "no frames found" sleep (line 213). -/
  | noFramesBackoff
  /-- Buffer invalidation when the frame paths changed (lines 223-226). -/
  | resetOnPathsChanged
  /-- Event: `Image.open` succeeded for `path` during a buffer fill (lines 238-240). -/
  | loadFrame (path : String)
  /-- Event: `Image.open` raised for `path`; caught, fill stops (lines 241-245). -/
  | loadFail (path : String)
  /-- The 1 s sleep after a fill that loaded nothing (lines 254-256). -/
  | fillFailBackoff
  /-- The display path ran with read cursor `bufIdx` (line 262). -/
  | displayTick (bufIdx : Nat)
  /-- Event: `disp.ShowImage` was invoked with the image decoded from `src` (line 116). -/
  | showImage (src : String)
  /-- That `ShowImage` call raised; caught inside the helper (lines 117-118). -/
  | showImageFailed
  /-- The defensive `IndexError` recovery branch ran (lines 266-271). -/
  | indexErrorRecovery
  /-- The end-of-tick pacing sleep `max(0, frame_delay - elapsed)` (lines 287-290). -/
  | paceSleep
deriving Repr, DecidableEq

def Event.isLoadEvent : Event → Bool
  | .loadFrame _ => true
  | .loadFail _ => true
  | _ => false

def Event.isCheckSignal : Event → Bool
  | .checkSignal _ => true
  | _ => false

def Event.isDisplayTick : Event → Bool
  | .displayTick _ => true
  | _ => false

/-- Events produced only by an available display (`disp.ShowImage` traffic). -/
def Event.isHardware : Event → Bool
  | .showImage _ => true
  | .showImageFailed => true
  | _ => false

/-! ## FrameSetResolver: `_get_frames` (lines 103-107)

`glob.glob(os.path.join(folder, 'frame_*.png'))` filters the directory
listing by the shell pattern `frame_*.png` (`*` matches any run of
characters of a filename) and `sorted` orders the results
lexicographically by code point.  The constant folder prefix added by
`os.path.join` does not change the relative order, so we work on the
bare filenames.  A missing or empty directory gives the empty listing. -/

/-- The `fnmatch` semantics of the pattern `frame_*.png` on a filename. -/
def matchesFramePattern (name : String) : Bool :=
  "frame_".data.isPrefixOf name.data && ".png".data.isSuffixOf name.data

/-- Embedding of `DisplayPlayer._get_frames`, over the directory listing. -/
def getFrames (dirListing : List String) : List String :=
  (dirListing.filter matchesFramePattern).insertionSort (· ≤ ·)

/-- The spec's "fixed form `frame_<zero-padded index>.png`" with a 4-digit
zero-padded index (`frame_%04d.png`), as a checkable predicate. -/
def isFrameIndexName (s : String) : Bool :=
  s.data.length == 14 && "frame_".data.isPrefixOf s.data &&
    ".png".data.isSuffixOf s.data && ((s.data.drop 6).take 4).all Char.isDigit

/-! ## FrameBuffer fill: the refill block (lines 230-251)

The `for i in range(self.buffer_size)` loop.  Python raises
`ZeroDivisionError` at `(self.path_index + i) % len(self.current_frame_paths)`
if the path list is empty; `Image.open` failures are caught and stop the
fill (`break`).  `fillGo remaining i` is the loop from counter value `i`
with `remaining` iterations left; it returns the images loaded from this
point on, the count of successful loads (`paths_loaded`), and the events. -/

def fillGo (decode : String → Option Image) (paths : List String)
    (path_index : Nat) : Nat → Nat → Except PyErr (List Image × Nat × List Event)
  | 0, _ => .ok ([], 0, [])
  | remaining + 1, i =>
    match pymod (path_index + i) paths.length with
    | .error e => .error e
    | .ok idx =>
      let frame_path := paths.getD idx ""
      match decode frame_path with
      | some img =>
        match fillGo decode paths path_index remaining (i + 1) with
        | .error e => .error e
        | .ok (imgs, loaded, evs) =>
          .ok (img :: imgs, loaded + 1, .loadFrame frame_path :: evs)
      | none => .ok ([], 0, [.loadFail frame_path])

/-- The whole refill block: runs the fill loop, then advances the path
cursor by the number of frames actually loaded,
`self.path_index = (self.path_index + paths_loaded) % len(...)` (line 250).
Returns `(images, new path cursor, events)`. -/
def ensureFilled (decode : String → Option Image) (paths : List String)
    (path_index buffer_size : Nat) : Except PyErr (List Image × Nat × List Event) :=
  match fillGo decode paths path_index buffer_size 0 with
  | .error e => .error e
  | .ok (imgs, loaded, evs) =>
    match pymod (path_index + loaded) paths.length with
    | .error e => .error e
    | .ok newCursor => .ok (imgs, newCursor, evs)

/-! ## DisplaySink teardown: the cleanup block of `stop()` (lines 330-356) -/

/-- Outcomes of the hardware calls made during cleanup, and which optional
methods the `disp` object has. -/
structure TeardownEnv where
  backlightFails : Bool
  hasShowImage : Bool
  showImageFails : Bool
  hasModuleExit : Bool
  moduleExitFails : Bool
deriving Repr, DecidableEq

inductive TdEvent where
  /-- Step: `self.disp.bl_DutyCycle(0)` invoked (line 335). -/
  | setBacklightZero
  /-- Step: `self.disp.ShowImage(black_img)` invoked (line 340). -/
  | blankShowImage
  /-- Step: `self.disp.module_exit()` invoked (line 348). -/
  | moduleExit
  /-- The single `except` at line 353 caught an exception from the block. -/
  | cleanupError
deriving Repr, DecidableEq

/-- The `try` block of lines 331-352 with its single `except` (line 353):
each call is attempted in order, and the first exception aborts the rest
of the block.  The `hasattr` checks (lines 339, 346) skip absent methods. -/
def lcdCleanup (env : TeardownEnv) : List TdEvent :=
  if env.backlightFails then [.setBacklightZero, .cleanupError]
  else
    let afterShow : List TdEvent → List TdEvent := fun evs =>
      if env.hasModuleExit then
        if env.moduleExitFails then evs ++ [.moduleExit, .cleanupError]
        else evs ++ [.moduleExit]
      else evs
    if env.hasShowImage then
      if env.showImageFails then [.setBacklightZero, .blankShowImage, .cleanupError]
      else afterShow [.setBacklightZero, .blankShowImage]
    else afterShow [.setBacklightZero]

/-- The hardware part of `DisplayPlayer.stop`: cleanup runs only when
`self.lcd_available and self.disp` (line 330). -/
def stopTeardown (lcd_available : Bool) (env : TeardownEnv) : List TdEvent :=
  if lcd_available then lcdCleanup env else []

/-! ## The playback loop: `_playback_loop` (lines 146-300)

One iteration of the `while not self._stop_event.is_set()` loop is
`step`.  The mutable attributes it touches form `PState`; everything the
iteration asks of the outside world is an `Env`. -/

/-- The mutable `DisplayPlayer` attributes used by the loop
(lines 61, 69-72 and the iteration locals of lines 149-151). -/
structure PState where
  last_processing_state : Bool
  consecutive_processing_checks : Nat
  consecutive_no_frames_found : Nat
  current_frame_path : Option String
  current_frame_paths : List String
  frame_buffer : List Image
  buffer_index : Nat
  path_index : Nat
deriving Repr, DecidableEq

/-- Fixed per-player configuration: `self.lcd_available` (with
`self.disp`, set together at lines 92-99) and `self.buffer_size`
(line 68, value 15). -/
structure Config where
  lcd_available : Bool
  buffer_size : Nat
deriving Repr, DecidableEq

/-- What the outside world does during one loop iteration. -/
structure Env where
  /-- Result of `self.app.config.get('PROCESSING_VIDEO', False)`;
  `.error` models the read raising (caught at line 191). -/
  procRead : Except PyErr Bool
  /-- The frame-directory listing seen by `_get_frames` this iteration
  (empty when the directory is missing or empty). -/
  dirListing : List String
  /-- Result of `PIL.Image.open` on a path: `none` models it raising. -/
  decode : String → Option Image
  /-- Whether `disp.ShowImage` raises this tick (caught at line 117). -/
  showImageFails : Bool
  /-- Value of `self._stop_event.is_set()` at the top of the iteration (line 159). -/
  stopAtTop : Bool
  /-- Value of `self._stop_event.is_set()` after the pacing sleep (line 294). -/
  stopAfterFrame : Bool

/-- Result of one non-erroring iteration: next state, event trace, and
whether the iteration exited the loop via the `break` at line 296. -/
structure StepOut where
  state : PState
  events : List Event
  brokeOut : Bool
deriving Repr, DecidableEq

/-- Embedding of `_display_image_object` (lines 109-118): no-op when the LCD is
unavailable; otherwise calls `ShowImage`, catching any exception.
Never raises, and never touches `current_frame_path`. -/
def display_image_object (cfg : Config) (showFails : Bool) (img : Image) :
    List Event :=
  if cfg.lcd_available then
    if showFails then [.showImage img.src, .showImageFailed]
    else [.showImage img.src]
  else []

/-- The display-and-pace tail of the iteration (lines 259-296): index the
buffer (the `try` of line 261 catches `IndexError` at line 266 and
`continue`s, skipping sleep and the stop re-check), display, advance the
read cursor, clear the buffer when exhausted (lines 280-283), pace, then
re-check the stop event (line 294).  `_display_image_object` catches its
own exceptions, so the generic handler at line 272 is unreachable. -/
def displayPhase (cfg : Config) (env : Env) (s : PState) (evs : List Event) :
    StepOut :=
  match pyindex s.frame_buffer s.buffer_index with
  | .error _ =>
    ⟨{ s with frame_buffer := [], buffer_index := 0 },
      evs ++ [.indexErrorRecovery], false⟩
  | .ok img =>
    let evs := evs ++ [.displayTick s.buffer_index]
      ++ display_image_object cfg env.showImageFails img
    let s1 := { s with buffer_index := s.buffer_index + 1 }
    let s2 :=
      if s1.frame_buffer.length ≤ s1.buffer_index then
        { s1 with frame_buffer := [], buffer_index := 0 }
      else s1
    ⟨s2, evs ++ [.paceSleep], env.stopAfterFrame⟩

/-- Lines 229-296: refill the buffer if it is empty; if the refill
loaded nothing, sleep 1 s and `continue` (lines 254-257); otherwise run
the display tail. -/
def fillAndDisplay (cfg : Config) (env : Env) (s : PState) (evs : List Event) :
    Except PyErr StepOut :=
  if s.frame_buffer.isEmpty then
    match ensureFilled env.decode s.current_frame_paths s.path_index cfg.buffer_size with
    | .error e => .error e
    | .ok (imgs, newCursor, fillEvs) =>
      let s := { s with frame_buffer := imgs, buffer_index := 0, path_index := newCursor }
      if s.frame_buffer.isEmpty then
        .ok ⟨s, evs ++ fillEvs ++ [.fillFailBackoff], false⟩
      else .ok (displayPhase cfg env s (evs ++ fillEvs))
  else .ok (displayPhase cfg env s evs)

/-- Lines 196-296: list the frames; with none found, clear state if
frames disappeared and back off 1 s (lines 199-214); otherwise reset the
no-frames counter (lines 215-218), invalidate the buffer when the path
list changed (lines 220-227), and continue with fill and display. -/
def framesPhase (cfg : Config) (env : Env) (s : PState) (evs : List Event) :
    Except PyErr StepOut :=
  let frame_paths := getFrames env.dirListing
  if frame_paths.isEmpty then
    if s.current_frame_paths.isEmpty then
      .ok ⟨{ s with
              current_frame_path := none,
              consecutive_no_frames_found := s.consecutive_no_frames_found + 1 },
            evs ++ [.noFramesBackoff], false⟩
    else
      .ok ⟨{ s with
              current_frame_path := none, current_frame_paths := [],
              frame_buffer := [], path_index := 0, buffer_index := 0,
              consecutive_no_frames_found := s.consecutive_no_frames_found + 1 },
            evs ++ [.clearOnFramesGone, .noFramesBackoff], false⟩
  else
    let s1 := { s with consecutive_no_frames_found := 0 }
    if frame_paths = s1.current_frame_paths then
      fillAndDisplay cfg env s1 evs
    else
      fillAndDisplay cfg env
        { s1 with
          current_frame_paths := frame_paths, frame_buffer := [],
          path_index := 0, buffer_index := 0 }
        (evs ++ [.resetOnPathsChanged])

/-- One iteration of the loop body (lines 160-296), from the processing
flag check onward.  A failed read is caught at line 191 (1 s sleep,
`continue`); a true flag pauses (lines 165-176); a false flag after a
true one is the falling edge, forcing buffer invalidation
(lines 178-188) before the frames phase. -/
def step (cfg : Config) (env : Env) (s : PState) : Except PyErr StepOut :=
  match env.procRead with
  | .error _ => .ok ⟨s, [.signalReadFailed], false⟩
  | .ok true =>
    if s.last_processing_state then
      .ok ⟨{ s with consecutive_processing_checks := s.consecutive_processing_checks + 1 },
            [.checkSignal true, .pauseSleep], false⟩
    else
      .ok ⟨{ s with last_processing_state := true, consecutive_processing_checks := 0 },
            [.checkSignal true, .pauseSleep], false⟩
  | .ok false =>
    if s.last_processing_state then
      framesPhase cfg env
        { s with
            last_processing_state := false, consecutive_processing_checks := 0,
            current_frame_paths := [], frame_buffer := [],
            path_index := 0, buffer_index := 0 }
        [.checkSignal false, .resetOnFallingEdge]
    else
      framesPhase cfg env s [.checkSignal false]

/-- The loop state on entry (lines 149-157; the buffer attributes are
also cleared there). -/
def initState : PState :=
  { last_processing_state := false, consecutive_processing_checks := 0,
    consecutive_no_frames_found := 0, current_frame_path := none,
    current_frame_paths := [], frame_buffer := [], buffer_index := 0,
    path_index := 0 }

/-- The `while not self._stop_event.is_set()` loop (line 159) over a
finite schedule of environments, one per iteration.  Returns the final
state and whether the loop exited because of the stop event (`true`) or
because the schedule ran out while still running (`false`). -/
def run (cfg : Config) : List Env → PState → Except PyErr (PState × Bool)
  | [], s => .ok (s, false)
  | env :: rest, s =>
    if env.stopAtTop then .ok (s, true)
    else
      match step cfg env s with
      | .error e => .error e
      | .ok out => if out.brokeOut then .ok (out.state, true) else run cfg rest out.state

/-! ## Lemmas about the buffer fill -/

/-- With a non-empty path list, the fill loop never raises. -/
theorem fillGo_ok (decode : String → Option Image) (paths : List String)
    (c : Nat) (hne : paths ≠ []) :
    ∀ remaining i, ∃ r, fillGo decode paths c remaining i = .ok r := by
  intro remaining
  induction remaining with
  | zero => intro i; exact ⟨([], 0, []), rfl⟩
  | succ k ih =>
    intro i
    have hlen : paths.length ≠ 0 := by
      simpa [List.length_eq_zero] using hne
    simp only [fillGo, pymod, hlen, if_neg, ite_false]
    cases hdec : decode (paths.getD ((c + i) % paths.length) "") with
    | none => exact ⟨_, rfl⟩
    | some img =>
      obtain ⟨⟨imgs, loaded, evs⟩, hr⟩ := ih (i + 1)
      exact ⟨_, by rw [hr]⟩

/-- Every event recorded by the fill loop is a load event. -/
theorem fillGo_events_load (decode : String → Option Image) (paths : List String)
    (c : Nat) :
    ∀ remaining i imgs loaded evs,
      fillGo decode paths c remaining i = .ok (imgs, loaded, evs) →
      ∀ ev ∈ evs, ev.isLoadEvent = true := by
  intro remaining
  induction remaining with
  | zero =>
    intro i imgs loaded evs h ev hev
    simp only [fillGo, Except.ok.injEq, Prod.mk.injEq] at h
    rw [← h.2.2] at hev
    cases hev
  | succ k ih =>
    intro i imgs loaded evs h ev hev
    by_cases hlen : paths.length = 0
    · simp only [fillGo, pymod, hlen, if_pos] at h
      exact Except.noConfusion h
    · simp only [fillGo, pymod, hlen, ite_false] at h
      cases hdec : decode (paths.getD ((c + i) % paths.length) "") with
      | none =>
        rw [hdec] at h
        simp only [Except.ok.injEq, Prod.mk.injEq] at h
        rw [← h.2.2] at hev
        simp only [List.mem_singleton] at hev
        subst hev
        rfl
      | some img =>
        rw [hdec] at h
        cases hrec : fillGo decode paths c k (i + 1) with
        | error e => rw [hrec] at h; cases h
        | ok r =>
          obtain ⟨imgs', loaded', evs'⟩ := r
          rw [hrec] at h
          simp only [Except.ok.injEq, Prod.mk.injEq] at h
          rw [← h.2.2] at hev
          rcases hev with _ | hev'
          · rfl
          · exact ih (i + 1) imgs' loaded' evs' hrec ev (by assumption)

/-- When every decode succeeds, the fill loop loads exactly `remaining`
images, the `j`-th one decoded from the path at wrapped index
`(c + i + j) % paths.length`. -/
theorem fillGo_all_some (decode : String → Option Image) (paths : List String)
    (c : Nat) (hne : paths ≠ []) (hdec : ∀ p, (decode p).isSome = true) :
    ∀ remaining i, ∃ imgs evs,
      fillGo decode paths c remaining i = .ok (imgs, remaining, evs) ∧
      imgs.length = remaining ∧
      ∀ j, j < remaining →
        imgs.get? j = decode (paths.getD ((c + i + j) % paths.length) "") := by
  have hlen : paths.length ≠ 0 := by simpa [List.length_eq_zero] using hne
  intro remaining
  induction remaining with
  | zero =>
    intro i
    exact ⟨[], [], rfl, rfl, fun j hj => absurd hj (Nat.not_lt_zero j)⟩
  | succ k ih =>
    intro i
    obtain ⟨img, himg⟩ := Option.isSome_iff_exists.mp
      (hdec (paths.getD ((c + i) % paths.length) ""))
    obtain ⟨imgs, evs, hrec, hlen2, hget⟩ := ih (i + 1)
    refine ⟨img :: imgs, .loadFrame (paths.getD ((c + i) % paths.length) "") :: evs,
      ?_, by simp [hlen2], ?_⟩
    · simp only [fillGo, pymod, hlen, ite_false]
      rw [himg, hrec]
    · intro j hj
      cases j with
      | zero => simpa using himg.symm
      | succ j' =>
        have h1 := hget j' (Nat.lt_of_succ_lt_succ hj)
        have h2 : c + i + (j' + 1) = c + (i + 1) + j' := by omega
        simpa [h2] using h1

/-- When the first `m` decodes of a fill succeed and the next fails, the
fill loop stops there: exactly `m` images, `paths_loaded = m`. -/
theorem fillGo_first_failure (decode : String → Option Image) (paths : List String)
    (c : Nat) (hne : paths ≠ []) :
    ∀ m remaining i, m < remaining →
      (∀ j, j < m → (decode (paths.getD ((c + i + j) % paths.length) "")).isSome = true) →
      decode (paths.getD ((c + i + m) % paths.length) "") = none →
      ∃ imgs evs, fillGo decode paths c remaining i = .ok (imgs, m, evs) ∧
        imgs.length = m := by
  have hlen : paths.length ≠ 0 := by simpa [List.length_eq_zero] using hne
  intro m
  induction m with
  | zero =>
    intro remaining i hm hok hfail
    obtain ⟨r, rfl⟩ : ∃ r, remaining = r + 1 := ⟨remaining - 1, by omega⟩
    refine ⟨[], [.loadFail (paths.getD ((c + i) % paths.length) "")], ?_, rfl⟩
    simp only [Nat.add_zero] at hfail
    simp only [fillGo, pymod, hlen, ite_false]
    rw [hfail]
  | succ m ih =>
    intro remaining i hm hok hfail
    obtain ⟨r, rfl⟩ : ∃ r, remaining = r + 1 := ⟨remaining - 1, by omega⟩
    have h0 : (decode (paths.getD ((c + i) % paths.length) "")).isSome = true := by
      simpa using hok 0 (Nat.succ_pos m)
    obtain ⟨img, himg⟩ := Option.isSome_iff_exists.mp h0
    have hok' : ∀ j, j < m →
        (decode (paths.getD ((c + (i + 1) + j) % paths.length) "")).isSome = true := by
      intro j hj
      have h1 := hok (j + 1) (Nat.succ_lt_succ hj)
      have h2 : c + i + (j + 1) = c + (i + 1) + j := by omega
      rwa [h2] at h1
    have hfail' : decode (paths.getD ((c + (i + 1) + m) % paths.length) "") = none := by
      have h2 : c + i + (m + 1) = c + (i + 1) + m := by omega
      rwa [h2] at hfail
    obtain ⟨imgs, evs, hrec, hlen2⟩ := ih r (i + 1) (by omega) hok' hfail'
    refine ⟨img :: imgs, .loadFrame (paths.getD ((c + i) % paths.length) "") :: evs,
      ?_, by simp [hlen2]⟩
    simp only [fillGo, pymod, hlen, ite_false]
    rw [himg, hrec]

/-- C4: over a non-empty frame set with every decode succeeding, a fill
loads exactly `capacity` images, the `j`-th decoded from the path at
wrapped index `(cursor + j) mod length`, and leaves the path cursor at
`(cursor + capacity) mod length`; in particular, size 3 with capacity 15
and cursor 0 yields sources `[0,1,2,0,1,2,...]` and cursor `15 mod 3 = 0`
(see the witness). -/
theorem claim_C4 (decode : String → Option Image) (paths : List String)
    (cursor cap : Nat) (hne : paths ≠ []) (hdec : ∀ p, (decode p).isSome = true) :
    ∃ imgs evs,
      ensureFilled decode paths cursor cap =
        .ok (imgs, (cursor + cap) % paths.length, evs) ∧
      imgs.length = cap ∧
      ∀ j, j < cap →
        imgs.get? j = decode (paths.getD ((cursor + j) % paths.length) "") := by
  have hlen : paths.length ≠ 0 := by simpa [List.length_eq_zero] using hne
  obtain ⟨imgs, evs, hfill, hlen2, hget⟩ := fillGo_all_some decode paths cursor hne hdec cap 0
  refine ⟨imgs, evs, ?_, hlen2, fun j hj => hget j hj⟩
  simp only [ensureFilled, hfill, pymod, hlen, ite_false]

/-- C4 witness: frame set of size 3, capacity 15, cursor 0, all decodes
succeeding: 15 images, wraparound sources, final cursor 0. -/
theorem claim_C4_witness :
    ∃ imgs evs,
      ensureFilled (fun p => some ⟨p⟩)
        ["frame_0001.png", "frame_0002.png", "frame_0003.png"] 0 15 =
        .ok (imgs, 0, evs) ∧
      imgs.length = 15 ∧
      ∀ j, j < 15 →
        imgs.get? j = some ⟨["frame_0001.png", "frame_0002.png",
          "frame_0003.png"].getD (j % 3) ""⟩ := by
  obtain ⟨imgs, evs, h1, h2, h3⟩ := claim_C4 (fun p => some ⟨p⟩)
    ["frame_0001.png", "frame_0002.png", "frame_0003.png"] 0 15
    (by decide) (fun p => rfl)
  exact ⟨imgs, evs, h1, h2, fun j hj => by simpa using h3 j hj⟩

/-- C8: over a non-empty frame set, if the first `m` decodes of a fill
succeed and the `m`-th (0-based) fails with `m < capacity`, the fill
stops immediately: it returns exactly `m` images and advances the path
cursor by exactly `m` modulo the set length, raising nothing. -/
theorem claim_C8 (decode : String → Option Image) (paths : List String)
    (cursor cap m : Nat) (hne : paths ≠ []) (hm : m < cap)
    (hok : ∀ j, j < m →
      (decode (paths.getD ((cursor + j) % paths.length) "")).isSome = true)
    (hfail : decode (paths.getD ((cursor + m) % paths.length) "") = none) :
    ∃ imgs evs,
      ensureFilled decode paths cursor cap =
        .ok (imgs, (cursor + m) % paths.length, evs) ∧
      imgs.length = m := by
  have hlen : paths.length ≠ 0 := by simpa [List.length_eq_zero] using hne
  obtain ⟨imgs, evs, hfill, hlen2⟩ :=
    fillGo_first_failure decode paths cursor hne m cap 0 hm hok hfail
  refine ⟨imgs, evs, ?_, hlen2⟩
  simp only [ensureFilled, hfill, pymod, hlen, ite_false]

/-- C8 witness: set of size 3, capacity 15; the decode of the second
frame of the fill fails, so exactly 1 image is returned and the cursor
advances to 1. -/
theorem claim_C8_witness :
    ∃ imgs evs,
      ensureFilled
        (fun p => if p = "frame_0002.png" then none else some ⟨p⟩)
        ["frame_0001.png", "frame_0002.png", "frame_0003.png"] 0 15 =
        .ok (imgs, 1, evs) ∧
      imgs.length = 1 := by
  obtain ⟨imgs, evs, h1, h2⟩ := claim_C8
    (fun p => if p = "frame_0002.png" then none else some ⟨p⟩)
    ["frame_0001.png", "frame_0002.png", "frame_0003.png"] 0 15 1
    (by decide) (by omega)
    (by intro j hj; interval_cases j; decide)
    (by decide)
  exact ⟨imgs, evs, h1, h2⟩

/-! ## Claim C1: teardown order and guarding -/

/-- C1 counterexample: with `bl_DutyCycle(0)` raising (and `ShowImage`
and `module_exit` both present and healthy), the single `except` around
the cleanup block aborts it: the blank-frame and module-exit steps are
never attempted, so the three steps are not independently guarded. -/
theorem claim_C1_counterexample :
    lcdCleanup ⟨true, true, false, true, false⟩ =
      [TdEvent.setBacklightZero, TdEvent.cleanupError] ∧
    TdEvent.blankShowImage ∉ lcdCleanup ⟨true, true, false, true, false⟩ ∧
    TdEvent.moduleExit ∉ lcdCleanup ⟨true, true, false, true, false⟩ := by
  decide

/-- C1 (amended): the teardown attempts the three steps in the fixed
order backlight-off, blank-frame `ShowImage`, `module_exit`, inside one
shared guard: whatever happens, the attempted calls form a prefix-order
sublist of that fixed order and no exception propagates out; when every
call succeeds all three run; but the steps are not independently
guarded - an exception in `setBacklight` aborts the remaining steps
(only the caught-error marker follows it). -/
theorem claim_C1_amended (env : TeardownEnv) :
    List.Sublist ((lcdCleanup env).filter (fun ev => ev != TdEvent.cleanupError))
      [TdEvent.setBacklightZero, TdEvent.blankShowImage, TdEvent.moduleExit] ∧
    (env.backlightFails = false ∧ env.hasShowImage = true ∧ env.showImageFails = false ∧
        env.hasModuleExit = true ∧ env.moduleExitFails = false →
      lcdCleanup env =
        [TdEvent.setBacklightZero, TdEvent.blankShowImage, TdEvent.moduleExit]) ∧
    (env.backlightFails = true →
      lcdCleanup env = [TdEvent.setBacklightZero, TdEvent.cleanupError]) := by
  obtain ⟨b1, b2, b3, b4, b5⟩ := env
  cases b1 <;> cases b2 <;> cases b3 <;> cases b4 <;> cases b5 <;> decide

/-- C1 witness: with all calls healthy and both optional methods
present, all three steps run in the fixed order. -/
theorem claim_C1_witness :
    lcdCleanup ⟨false, true, false, true, false⟩ =
      [TdEvent.setBacklightZero, TdEvent.blankShowImage, TdEvent.moduleExit] :=
  (claim_C1_amended ⟨false, true, false, true, false⟩).2.1
    ⟨rfl, rfl, rfl, rfl, rfl⟩

/-! ## Claim C7: the frame resolver -/

/-- C7 counterexample: the glob pattern `frame_*.png` is broader than
the fixed form `frame_<zero-padded index>.png`, so the resolver also
returns files like `frame_abc.png` that are not of that form. -/
theorem claim_C7_counterexample :
    getFrames ["frame_abc.png"] = ["frame_abc.png"] ∧
    isFrameIndexName "frame_abc.png" = false := by
  exact ⟨by decide, by decide⟩

/-- C7 (amended): the resolver returns exactly the files matching the
glob pattern `frame_*.png` (prefix `frame_`, suffix `.png` - a superset
of the zero-padded-index form), in lexicographic ascending order; a
directory with N matching files yields exactly N references; a missing,
empty, or matchless directory yields the empty sequence, never an
error; and resolving an unchanged directory again (its listing merely
re-ordered by the OS) yields an identical sequence. -/
theorem claim_C7_amended (listing other : List String) :
    (getFrames listing).Perm (listing.filter matchesFramePattern) ∧
    List.Sorted (· ≤ ·) (getFrames listing) ∧
    (getFrames listing).length = (listing.filter matchesFramePattern).length ∧
    (listing.filter matchesFramePattern = [] → getFrames listing = []) ∧
    (listing.Perm other → getFrames listing = getFrames other) := by
  refine ⟨List.perm_insertionSort _ _, List.sorted_insertionSort _ _,
    List.length_insertionSort _ _, ?_, ?_⟩
  · intro h
    simp [getFrames, h, List.insertionSort]
  · intro hperm
    refine List.eq_of_perm_of_sorted ?_
      (List.sorted_insertionSort _ _) (List.sorted_insertionSort _ _)
    exact (List.perm_insertionSort _ _).trans
      ((hperm.filter _).trans (List.perm_insertionSort _ _).symm)

/-- C7 witness: a non-matching file gives the empty sequence, and the
same two frame files listed in either OS order resolve identically. -/
theorem claim_C7_witness :
    getFrames ["junk.txt"] = [] ∧
    getFrames ["frame_0002.png", "frame_0001.png"] =
      getFrames ["frame_0001.png", "frame_0002.png"] :=
  ⟨(claim_C7_amended ["junk.txt"] []).2.2.2.1 (by decide),
    (claim_C7_amended ["frame_0002.png", "frame_0001.png"]
      ["frame_0001.png", "frame_0002.png"]).2.2.2.2
      (List.Perm.swap "frame_0001.png" "frame_0002.png" [])⟩

/-! ## Trace helpers and per-phase lemmas -/

/-- Events that the part of an iteration after the processing-flag block
(lines 196-296) can emit: everything except the flag-check events and
the falling-edge reset. -/
def Event.fromFramesPhase : Event → Bool
  | .checkSignal _ => false
  | .signalReadFailed => false
  | .pauseSleep => false
  | .resetOnFallingEdge => false
  | _ => true

/-- Is there a signal check at or after some load event of the trace? -/
def anyCheckAfterLoad : List Event → Bool
  | [] => false
  | ev :: rest =>
    (ev.isLoadEvent && rest.any Event.isCheckSignal) || anyCheckAfterLoad rest

/-- The event trace of one iteration (empty for the unreachable
uncaught-exception case). -/
def stepEvents (cfg : Config) (env : Env) (s : PState) : List Event :=
  match step cfg env s with
  | .ok out => out.events
  | .error _ => []

/-- The state after one iteration (unchanged for the unreachable
uncaught-exception case). -/
def stepState (cfg : Config) (env : Env) (s : PState) : PState :=
  match step cfg env s with
  | .ok out => out.state
  | .error _ => s

/-- One healthy iteration environment: not paused, one frame on disk,
decoding succeeds, hardware works, no stop request. -/
def envOneFrame : Env :=
  { procRead := .ok false, dirListing := ["frame_0001.png"],
    decode := fun p => some ⟨p⟩, showImageFails := false,
    stopAtTop := false, stopAfterFrame := false }

/-- The events of `_display_image_object` are hardware events only. -/
theorem display_image_object_events (cfg : Config) (f : Bool) (img : Image) :
    ∀ ev ∈ display_image_object cfg f img,
      ev.fromFramesPhase = true ∧ ev.isLoadEvent = false ∧
      ev.isDisplayTick = false ∧ ev.isHardware = true := by
  intro ev hev
  unfold display_image_object at hev
  split at hev
  · split at hev <;> simp only [List.mem_cons, List.mem_singleton,
      List.not_mem_nil, or_false] at hev
    · rcases hev with rfl | rfl <;> exact ⟨rfl, rfl, rfl, rfl⟩
    · rcases hev with rfl
      exact ⟨rfl, rfl, rfl, rfl⟩
  · cases hev

/-- Headless `_display_image_object` emits nothing. -/
theorem display_image_object_headless (n : Nat) (f : Bool) (img : Image) :
    display_image_object ⟨false, n⟩ f img = [] := rfl

/-- The display tail: its output trace extends the input trace with
events of the frames phase only, none of them loads, at most one
display tick; it exits the loop only on the stop event. -/
theorem displayPhase_spec (cfg : Config) (env : Env) (s : PState) (evs : List Event) :
    ∃ tail,
      (displayPhase cfg env s evs).events = evs ++ tail ∧
      (∀ ev ∈ tail, ev.fromFramesPhase = true ∧ ev.isLoadEvent = false) ∧
      tail.countP Event.isDisplayTick ≤ 1 ∧
      ((displayPhase cfg env s evs).brokeOut = true → env.stopAfterFrame = true) := by
  unfold displayPhase
  cases h : pyindex s.frame_buffer s.buffer_index with
  | error e =>
    refine ⟨[.indexErrorRecovery], rfl, ?_, by decide, by simp⟩
    intro ev hev
    simp only [List.mem_singleton] at hev
    subst hev
    exact ⟨rfl, rfl⟩
  | ok img =>
    refine ⟨[.displayTick s.buffer_index] ++ display_image_object cfg env.showImageFails img
      ++ [.paceSleep], by simp, ?_, ?_, by simp⟩
    · intro ev hev
      simp only [List.mem_append, List.mem_singleton] at hev
      rcases hev with (rfl | hev) | rfl
      · exact ⟨rfl, rfl⟩
      · exact ⟨(display_image_object_events cfg env.showImageFails img ev hev).1,
          (display_image_object_events cfg env.showImageFails img ev hev).2.1⟩
      · exact ⟨rfl, rfl⟩
    · have h2 : (display_image_object cfg env.showImageFails img).countP
          Event.isDisplayTick = 0 := by
        rw [List.countP_eq_zero]
        intro ev hev
        simp [(display_image_object_events cfg env.showImageFails img ev hev).2.2.1]
      simp [List.countP_cons, List.countP_append, h2, Event.isDisplayTick]

theorem Event.load_fromFramesPhase {ev : Event} (h : ev.isLoadEvent = true) :
    ev.fromFramesPhase = true := by
  cases ev <;> simp_all [Event.isLoadEvent, Event.fromFramesPhase]

theorem Event.load_not_tick {ev : Event} (h : ev.isLoadEvent = true) :
    ev.isDisplayTick = false := by
  cases ev <;> simp_all [Event.isLoadEvent, Event.isDisplayTick]

/-- A list of load events contains no display ticks. -/
theorem countP_tick_zero_of_loads (evs : List Event)
    (h : ∀ ev ∈ evs, ev.isLoadEvent = true) :
    evs.countP Event.isDisplayTick = 0 := by
  rw [List.countP_eq_zero]
  intro ev hev
  simp [Event.load_not_tick (h ev hev)]

/-- With a non-empty path list the refill block never raises, and all
its events are load events. -/
theorem ensureFilled_ok (decode : String → Option Image) (paths : List String)
    (c cap : Nat) (hne : paths ≠ []) :
    ∃ imgs cur evs, ensureFilled decode paths c cap = .ok (imgs, cur, evs) ∧
      ∀ ev ∈ evs, ev.isLoadEvent = true := by
  have hlen : paths.length ≠ 0 := by simpa [List.length_eq_zero] using hne
  obtain ⟨⟨imgs, loaded, evs⟩, hr⟩ := fillGo_ok decode paths c hne cap 0
  refine ⟨imgs, (c + loaded) % paths.length, evs, ?_,
    fillGo_events_load decode paths c cap 0 imgs loaded evs hr⟩
  simp only [ensureFilled, hr, pymod, hlen, ite_false]

/-- The fill-and-display part of an iteration, on a non-empty cached
path list: never raises, extends the trace with frames-phase events
only, shows at most one frame, and exits only on the stop event. -/
theorem fillAndDisplay_spec (cfg : Config) (env : Env) (s : PState) (evs : List Event)
    (hne : s.current_frame_paths ≠ []) :
    ∃ out tail, fillAndDisplay cfg env s evs = .ok out ∧
      out.events = evs ++ tail ∧
      (∀ ev ∈ tail, ev.fromFramesPhase = true) ∧
      tail.countP Event.isDisplayTick ≤ 1 ∧
      (out.brokeOut = true → env.stopAfterFrame = true) := by
  unfold fillAndDisplay
  by_cases hb : s.frame_buffer.isEmpty
  · obtain ⟨imgs, cur, fevs, hfill, hload⟩ :=
      ensureFilled_ok env.decode s.current_frame_paths s.path_index cfg.buffer_size hne
    simp only [hb, ite_true, hfill]
    by_cases himgs : imgs.isEmpty
    · simp only [himgs, ite_true]
      refine ⟨_, fevs ++ [.fillFailBackoff], rfl, by simp, ?_, ?_, by simp⟩
      · intro ev hev
        rcases List.mem_append.mp hev with hev | hev
        · exact Event.load_fromFramesPhase (hload ev hev)
        · simp only [List.mem_singleton] at hev
          subst hev
          rfl
      · simp [List.countP_append, countP_tick_zero_of_loads fevs hload,
          List.countP_cons, Event.isDisplayTick]
    · simp only [himgs, ite_false]
      obtain ⟨tail, hevents, htail, hcount, hbroke⟩ :=
        displayPhase_spec cfg env
          { s with frame_buffer := imgs, buffer_index := 0, path_index := cur }
          (evs ++ fevs)
      refine ⟨_, fevs ++ tail, rfl, by rw [hevents]; simp, ?_, ?_, hbroke⟩
      · intro ev hev
        rcases List.mem_append.mp hev with hev | hev
        · exact Event.load_fromFramesPhase (hload ev hev)
        · exact (htail ev hev).1
      · simpa [List.countP_append, countP_tick_zero_of_loads fevs hload] using hcount
  · obtain ⟨tail, hevents, htail, hcount, hbroke⟩ := displayPhase_spec cfg env s evs
    simp only [hb, ite_false]
    exact ⟨_, tail, rfl, hevents, fun ev hev => (htail ev hev).1, hcount, hbroke⟩

/-- The frames phase of an iteration: never raises, extends the trace
with frames-phase events only, shows at most one frame, and exits only
on the stop event. -/
theorem framesPhase_spec (cfg : Config) (env : Env) (s : PState) (evs : List Event) :
    ∃ out tail, framesPhase cfg env s evs = .ok out ∧
      out.events = evs ++ tail ∧
      (∀ ev ∈ tail, ev.fromFramesPhase = true) ∧
      tail.countP Event.isDisplayTick ≤ 1 ∧
      (out.brokeOut = true → env.stopAfterFrame = true) := by
  by_cases hfp : (getFrames env.dirListing).isEmpty
  · simp only [framesPhase, hfp, ite_true]
    by_cases hcur : s.current_frame_paths.isEmpty
    · simp only [hcur, ite_true]
      refine ⟨_, [.noFramesBackoff], rfl, rfl, ?_, by decide, by simp⟩
      intro ev hev
      simp only [List.mem_singleton] at hev
      subst hev
      rfl
    · simp only [hcur, ite_false]
      refine ⟨_, [.clearOnFramesGone, .noFramesBackoff], rfl, rfl, ?_, by decide, by simp⟩
      intro ev hev
      simp only [List.mem_cons, List.mem_singleton] at hev
      rcases hev with rfl | rfl | h
      · rfl
      · rfl
      · cases h
  · have hne : getFrames env.dirListing ≠ [] := by
      simpa [List.isEmpty_iff] using hfp
    simp only [framesPhase, hfp, ite_false]
    by_cases heq : getFrames env.dirListing =
        ({ s with consecutive_no_frames_found := 0 } : PState).current_frame_paths
    · simp only [heq, ite_true]
      exact fillAndDisplay_spec cfg env _ evs (by
        rw [← heq]
        exact hne)
    · simp only [heq, ite_false]
      obtain ⟨out, tail, hfd, hevents, htail, hcount, hbroke⟩ :=
        fillAndDisplay_spec cfg env
          { { s with consecutive_no_frames_found := 0 } with
              current_frame_paths := getFrames env.dirListing, frame_buffer := [],
              path_index := 0, buffer_index := 0 }
          (evs ++ [.resetOnPathsChanged]) (by simpa using hne)
      refine ⟨out, [.resetOnPathsChanged] ++ tail, hfd, by simpa using hevents, ?_, ?_, hbroke⟩
      · intro ev hev
        rcases List.mem_append.mp hev with hev | hev
        · simp only [List.mem_singleton] at hev
          subst hev
          rfl
        · exact htail ev hev
      · simpa [List.countP_append, List.countP_cons, Event.isDisplayTick] using hcount

/-- The display tail never changes `last_processing_state`. -/
theorem displayPhase_state_last (cfg : Config) (env : Env) (s : PState) (evs : List Event) :
    (displayPhase cfg env s evs).state.last_processing_state = s.last_processing_state := by
  unfold displayPhase
  split
  · rfl
  · dsimp only
    split <;> rfl

/-- Fill-and-display never changes `last_processing_state`. -/
theorem fillAndDisplay_state_last (cfg : Config) (env : Env) (s : PState)
    (evs : List Event) (out : StepOut) (h : fillAndDisplay cfg env s evs = .ok out) :
    out.state.last_processing_state = s.last_processing_state := by
  simp only [fillAndDisplay] at h
  split at h
  · split at h
    · exact Except.noConfusion h
    · split at h
      · injection h with h'
        subst h'
        rfl
      · injection h with h'
        subst h'
        exact displayPhase_state_last cfg env _ _
  · injection h with h'
    subst h'
    exact displayPhase_state_last cfg env _ _

/-- The frames phase never changes `last_processing_state`. -/
theorem framesPhase_state_last (cfg : Config) (env : Env) (s : PState)
    (evs : List Event) (out : StepOut) (h : framesPhase cfg env s evs = .ok out) :
    out.state.last_processing_state = s.last_processing_state := by
  simp only [framesPhase] at h
  split at h
  · split at h
    · injection h with h'
      subst h'
      rfl
    · injection h with h'
      subst h'
      rfl
  · split at h
    · have h2 := fillAndDisplay_state_last cfg env _ _ _ h
      simpa using h2
    · have h2 := fillAndDisplay_state_last cfg env _ _ _ h
      simpa using h2

theorem Event.fromFramesPhase_not_check {ev : Event}
    (h : ev.fromFramesPhase = true) : ev.isCheckSignal = false := by
  cases ev <;> simp_all [Event.fromFramesPhase, Event.isCheckSignal]

/-- A trace without signal checks has no check after a load. -/
theorem anyCheckAfterLoad_of_no_check (l : List Event)
    (h : ∀ ev ∈ l, ev.isCheckSignal = false) : anyCheckAfterLoad l = false := by
  induction l with
  | nil => rfl
  | cons ev rest ih =>
    have hany : rest.any Event.isCheckSignal = false := by
      rw [List.any_eq_false]
      intro x hx
      simp [h x (List.mem_cons_of_mem _ hx)]
    simp [anyCheckAfterLoad, hany,
      ih fun x hx => h x (List.mem_cons_of_mem _ hx)]

/-- A load-free block followed by a check-free block has no check after
a load. -/
theorem anyCheckAfterLoad_append (l1 l2 : List Event)
    (h1 : ∀ ev ∈ l1, ev.isLoadEvent = false)
    (h2 : ∀ ev ∈ l2, ev.isCheckSignal = false) :
    anyCheckAfterLoad (l1 ++ l2) = false := by
  induction l1 with
  | nil => simpa using anyCheckAfterLoad_of_no_check l2 h2
  | cons ev rest ih =>
    have hl : ev.isLoadEvent = false := h1 ev (List.mem_cons_self _ _)
    simp [anyCheckAfterLoad, hl,
      ih fun x hx => h1 x (List.mem_cons_of_mem _ hx)]

/-- One iteration never raises: its trace is a flag-check block (no
loads, no display ticks, at most one signal check) followed by a
frames-phase block (no signal checks, at most one display tick, empty
while paused), and the loop exits only on the stop event. -/
theorem step_spec (cfg : Config) (env : Env) (s : PState) :
    ∃ out head tail, step cfg env s = .ok out ∧
      out.events = head ++ tail ∧
      (∀ ev ∈ head, ev.isLoadEvent = false ∧ ev.isDisplayTick = false) ∧
      head.countP Event.isCheckSignal ≤ 1 ∧
      (∀ ev ∈ tail, ev.fromFramesPhase = true) ∧
      tail.countP Event.isDisplayTick ≤ 1 ∧
      (env.procRead = .ok true → tail = []) ∧
      (out.brokeOut = true → env.stopAfterFrame = true) := by
  have hpause : ∀ ev ∈ [Event.checkSignal true, Event.pauseSleep],
      ev.isLoadEvent = false ∧ ev.isDisplayTick = false := by
    intro ev hev
    simp only [List.mem_cons, List.mem_singleton] at hev
    rcases hev with rfl | rfl | h
    · exact ⟨rfl, rfl⟩
    · exact ⟨rfl, rfl⟩
    · cases h
  cases hr : env.procRead with
  | error e =>
    refine ⟨⟨s, [.signalReadFailed], false⟩, [.signalReadFailed], [],
      by simp [step, hr], rfl, ?_, by decide, by simp, by decide, fun _ => rfl, by simp⟩
    intro ev hev
    simp only [List.mem_singleton] at hev
    subst hev
    exact ⟨rfl, rfl⟩
  | ok b =>
    cases b with
    | true =>
      by_cases hlast : s.last_processing_state
      · exact ⟨⟨{ s with
            consecutive_processing_checks := s.consecutive_processing_checks + 1 },
            [.checkSignal true, .pauseSleep], false⟩,
          [.checkSignal true, .pauseSleep], [],
          by simp [step, hr, hlast], rfl, hpause, by decide, by simp, by decide,
          fun _ => rfl, by simp⟩
      · exact ⟨⟨{ s with
            last_processing_state := true, consecutive_processing_checks := 0 },
            [.checkSignal true, .pauseSleep], false⟩,
          [.checkSignal true, .pauseSleep], [],
          by simp [step, hr, hlast], rfl, hpause, by decide, by simp, by decide,
          fun _ => rfl, by simp⟩
    | false =>
      by_cases hlast : s.last_processing_state
      · obtain ⟨out, tail, hfp, hevents, htail, hcount, hbroke⟩ :=
          framesPhase_spec cfg env
            { s with
                last_processing_state := false, consecutive_processing_checks := 0,
                current_frame_paths := [], frame_buffer := [],
                path_index := 0, buffer_index := 0 }
            [.checkSignal false, .resetOnFallingEdge]
        refine ⟨out, [.checkSignal false, .resetOnFallingEdge], tail,
          by simp only [step, hr, hlast, ite_true]; exact hfp, hevents, ?_,
          by decide, htail, hcount,
          fun habs => by injection habs with h2; exact Bool.noConfusion h2, hbroke⟩
        intro ev hev
        simp only [List.mem_cons, List.mem_singleton] at hev
        rcases hev with rfl | rfl | h
        · exact ⟨rfl, rfl⟩
        · exact ⟨rfl, rfl⟩
        · cases h
      · obtain ⟨out, tail, hfp, hevents, htail, hcount, hbroke⟩ :=
          framesPhase_spec cfg env s [.checkSignal false]
        refine ⟨out, [.checkSignal false], tail,
          by simp only [step, hr, hlast, ite_false]; exact hfp, hevents, ?_,
          by decide, htail, hcount,
          fun habs => by injection habs with h2; exact Bool.noConfusion h2, hbroke⟩
        intro ev hev
        simp only [List.mem_singleton] at hev
        subst hev
        exact ⟨rfl, rfl⟩

/-! ## Claim C2: when the pause signal is checked -/

/-- C2 counterexample: in an iteration that fills the buffer and then
displays a frame, no signal check occurs after the loads - the only
check of the iteration is at the top, before loading - so the signal is
not re-checked between loading and display. -/
theorem claim_C2_counterexample :
    (stepEvents ⟨true, 15⟩ envOneFrame initState).any Event.isLoadEvent = true ∧
    (stepEvents ⟨true, 15⟩ envOneFrame initState).any Event.isDisplayTick = true ∧
    anyCheckAfterLoad (stepEvents ⟨true, 15⟩ envOneFrame initState) = false := by
  refine ⟨?_, ?_, ?_⟩ <;> decide

/-- C2 (amended): the pause signal is checked exactly once per
iteration, at the top before any loading - never again between loading
and display; each iteration displays at most one frame, so a signal
that becomes true mid-iteration is observed at the top of the next tick
(after at most one more displayed frame), and an iteration that reads
the signal as true loads and displays nothing. -/
theorem claim_C2_amended (cfg : Config) (env : Env) (s : PState) :
    ∃ out, step cfg env s = .ok out ∧
      anyCheckAfterLoad out.events = false ∧
      out.events.countP Event.isDisplayTick ≤ 1 ∧
      (env.procRead = .ok true →
        out.events.countP (fun ev => ev.isDisplayTick || ev.isLoadEvent) = 0) := by
  obtain ⟨out, head, tail, hstep, hevents, hhead, hchk, htail, hcount, hpause, hbroke⟩ :=
    step_spec cfg env s
  refine ⟨out, hstep, ?_, ?_, ?_⟩
  · rw [hevents]
    exact anyCheckAfterLoad_append head tail
      (fun ev hev => (hhead ev hev).1)
      (fun ev hev => Event.fromFramesPhase_not_check (htail ev hev))
  · rw [hevents, List.countP_append]
    have hh : head.countP Event.isDisplayTick = 0 := by
      rw [List.countP_eq_zero]
      intro ev hev
      simp [(hhead ev hev).2]
    omega
  · intro hp
    rw [hevents, hpause hp, List.append_nil, List.countP_eq_zero]
    intro ev hev
    simp [(hhead ev hev).1, (hhead ev hev).2]

/-- C2 witness: the amended statement at a concrete healthy iteration. -/
theorem claim_C2_witness :
    ∃ out, step ⟨true, 15⟩ envOneFrame initState = .ok out ∧
      anyCheckAfterLoad out.events = false ∧
      out.events.countP Event.isDisplayTick ≤ 1 ∧
      (envOneFrame.procRead = .ok true →
        out.events.countP (fun ev => ev.isDisplayTick || ev.isLoadEvent) = 0) :=
  claim_C2_amended ⟨true, 15⟩ envOneFrame initState

/-! ## Claim C5: falling-edge reset -/

/-- C5: when the previous iteration saw the signal true and this one
reads it false (falling edge), this iteration performs the forced
buffer/identity reset exactly once, before any load of a buffer fill,
and leaves `last_processing_state` false so later iterations do not
reset again. -/
theorem claim_C5 (cfg : Config) (env : Env) (s : PState)
    (hlast : s.last_processing_state = true) (hread : env.procRead = .ok false) :
    ∃ out, step cfg env s = .ok out ∧
      out.events.countP (fun ev => ev == Event.resetOnFallingEdge) = 1 ∧
      (out.events.takeWhile fun ev => !ev.isLoadEvent).countP
        (fun ev => ev == Event.resetOnFallingEdge) = 1 ∧
      out.state.last_processing_state = false := by
  obtain ⟨out, tail, hfp, hevents, htail, hcount, hbroke⟩ :=
    framesPhase_spec cfg env
      { s with
          last_processing_state := false, consecutive_processing_checks := 0,
          current_frame_paths := [], frame_buffer := [],
          path_index := 0, buffer_index := 0 }
      [.checkSignal false, .resetOnFallingEdge]
  have hstep : step cfg env s = .ok out := by
    simp only [step, hread, hlast, ite_true]
    exact hfp
  have htail0 : tail.countP (fun ev => ev == Event.resetOnFallingEdge) = 0 := by
    rw [List.countP_eq_zero]
    intro ev hev
    have h2 := htail ev hev
    cases ev <;> simp_all [Event.fromFramesPhase]
  refine ⟨out, hstep, ?_, ?_, ?_⟩
  · rw [hevents, List.countP_append, htail0]
    decide
  · rw [hevents]
    have hsplit : (([Event.checkSignal false, Event.resetOnFallingEdge] ++ tail).takeWhile
        fun ev => !ev.isLoadEvent) = Event.checkSignal false :: Event.resetOnFallingEdge ::
        (tail.takeWhile fun ev => !ev.isLoadEvent) := by
      simp [List.takeWhile_cons, Event.isLoadEvent]
    rw [hsplit]
    have hle := List.Sublist.countP_le (fun ev => ev == Event.resetOnFallingEdge)
      (List.takeWhile_sublist (l := tail) (p := fun ev => !ev.isLoadEvent))
    have hsub : (tail.takeWhile fun ev => !ev.isLoadEvent).countP
        (fun ev => ev == Event.resetOnFallingEdge) = 0 := by omega
    simp [List.countP_cons, hsub]
  · have h3 := framesPhase_state_last cfg env _ _ out hfp
    simpa using h3

/-- C5 witness: the falling edge at a concrete state and iteration. -/
theorem claim_C5_witness :
    ∃ out, step ⟨true, 15⟩ envOneFrame
        { initState with last_processing_state := true } = .ok out ∧
      out.events.countP (fun ev => ev == Event.resetOnFallingEdge) = 1 ∧
      (out.events.takeWhile fun ev => !ev.isLoadEvent).countP
        (fun ev => ev == Event.resetOnFallingEdge) = 1 ∧
      out.state.last_processing_state = false :=
  claim_C5 ⟨true, 15⟩ envOneFrame { initState with last_processing_state := true }
    rfl rfl

/-! ## Claim C9: the loop never crashes, exits only on stop -/

/-- C9: under every environment behaviour (any listings, any decode
failures, any `ShowImage` exceptions, any flag values or failed flag
reads), every iteration completes without an uncaught exception, and
the loop exits only because a stop check read true. -/
theorem claim_C9 (cfg : Config) (envs : List Env) (s : PState) :
    ∃ final exited, run cfg envs s = .ok (final, exited) ∧
      (exited = true →
        ∃ env ∈ envs, env.stopAtTop = true ∨ env.stopAfterFrame = true) := by
  induction envs generalizing s with
  | nil => exact ⟨s, false, rfl, by simp⟩
  | cons env rest ih =>
    by_cases hstop : env.stopAtTop
    · refine ⟨s, true, by simp [run, hstop], ?_⟩
      intro _
      exact ⟨env, List.mem_cons_self _ _, Or.inl hstop⟩
    · obtain ⟨out, head, tail, hstep, h2, h3, h4, h5, h6, h7, hbroke⟩ :=
        step_spec cfg env s
      by_cases hb : out.brokeOut
      · refine ⟨out.state, true, by simp [run, hstop, hstep, hb], ?_⟩
        intro _
        exact ⟨env, List.mem_cons_self _ _, Or.inr (hbroke hb)⟩
      · obtain ⟨final, exited, hrun, himp⟩ := ih out.state
        refine ⟨final, exited, by simp [run, hstop, hstep, hb, hrun], ?_⟩
        intro hex
        obtain ⟨e2, he2, hor⟩ := himp hex
        exact ⟨e2, List.mem_cons_of_mem _ he2, hor⟩

/-- C9 witness: a concrete two-iteration schedule ending in a stop. -/
theorem claim_C9_witness :
    ∃ final exited,
      run ⟨true, 15⟩ [envOneFrame,
        { envOneFrame with stopAtTop := true }] initState = .ok (final, exited) ∧
      (exited = true →
        ∃ env ∈ [envOneFrame, { envOneFrame with stopAtTop := true }],
          env.stopAtTop = true ∨ env.stopAfterFrame = true) :=
  claim_C9 ⟨true, 15⟩ [envOneFrame, { envOneFrame with stopAtTop := true }] initState

/-! ## Claim C3: zero frames and the backoff paths -/

/-- With no frames resolved, the iteration takes the no-frames branch:
a 1 s backoff, no load or display events. -/
theorem framesPhase_noFrames (cfg : Config) (env : Env) (s : PState)
    (evs : List Event) (hfp : getFrames env.dirListing = []) :
    ∃ out tail, framesPhase cfg env s evs = .ok out ∧
      out.events = evs ++ tail ∧ Event.noFramesBackoff ∈ tail ∧
      (∀ ev ∈ tail, ev.isLoadEvent = false ∧ ev.isDisplayTick = false) := by
  have hfp2 : (getFrames env.dirListing).isEmpty = true := by
    simp [List.isEmpty_iff, hfp]
  by_cases hcur : s.current_frame_paths.isEmpty
  · refine ⟨_, [.noFramesBackoff],
      by simp only [framesPhase, hfp2, hcur, ite_true]; rfl, rfl,
      by decide, ?_⟩
    intro ev hev
    simp only [List.mem_singleton] at hev
    subst hev
    exact ⟨rfl, rfl⟩
  · refine ⟨_, [.clearOnFramesGone, .noFramesBackoff],
      by simp [framesPhase, hfp2, hcur]; rfl, rfl, by decide, ?_⟩
    intro ev hev
    simp only [List.mem_cons, List.mem_singleton] at hev
    rcases hev with rfl | rfl | h
    · exact ⟨rfl, rfl⟩
    · exact ⟨rfl, rfl⟩
    · cases h

/-- When every decode fails, a fill over a non-empty set returns no
images and leaves the cursor where it was (mod the set length). -/
theorem ensureFilled_all_fail (decode : String → Option Image) (paths : List String)
    (c cap : Nat) (hne : paths ≠ []) (hcap : 0 < cap)
    (hdec : ∀ p, decode p = none) :
    ∃ evs, ensureFilled decode paths c cap = .ok ([], c % paths.length, evs) ∧
      ∀ ev ∈ evs, ev.isLoadEvent = true := by
  obtain ⟨imgs, evs, hfill, hlen0⟩ := fillGo_first_failure decode paths c hne 0 cap 0 hcap
    (fun j hj => absurd hj (Nat.not_lt_zero j)) (hdec _)
  obtain rfl : imgs = [] := List.length_eq_zero.mp hlen0
  have hlen : paths.length ≠ 0 := by simpa [List.length_eq_zero] using hne
  refine ⟨evs, ?_, fillGo_events_load decode paths c cap 0 [] 0 evs hfill⟩
  simp only [ensureFilled, hfill, pymod, hlen, ite_false]
  rfl

/-- With an empty buffer, a non-empty set and every decode failing, the
iteration ends in the fill-failure backoff: no display happens. -/
theorem fillAndDisplay_all_fail (cfg : Config) (env : Env) (s : PState)
    (evs : List Event) (hne : s.current_frame_paths ≠ [])
    (hbuf : s.frame_buffer = []) (hcap : 0 < cfg.buffer_size)
    (hdec : ∀ p, env.decode p = none) :
    ∃ out fevs, fillAndDisplay cfg env s evs = .ok out ∧
      out.events = evs ++ fevs ++ [.fillFailBackoff] ∧
      (∀ ev ∈ fevs, ev.isLoadEvent = true) ∧ out.brokeOut = false := by
  obtain ⟨fevs, hfill, hload⟩ :=
    ensureFilled_all_fail env.decode s.current_frame_paths s.path_index
      cfg.buffer_size hne hcap hdec
  have hbuf2 : s.frame_buffer.isEmpty = true := by simp [List.isEmpty_iff, hbuf]
  refine ⟨⟨{ s with
      frame_buffer := [], buffer_index := 0,
      path_index := s.path_index % s.current_frame_paths.length },
    evs ++ fevs ++ [.fillFailBackoff], false⟩, fevs, ?_, rfl, hload, rfl⟩
  simp only [fillAndDisplay, hbuf2, ite_true, hfill, List.isEmpty_nil]

/-- Reduction of the frames phase when frames are present. -/
theorem framesPhase_nonempty (cfg : Config) (env : Env) (s : PState)
    (evs : List Event) (hfp : (getFrames env.dirListing).isEmpty = false) :
    framesPhase cfg env s evs =
      (if getFrames env.dirListing = s.current_frame_paths then
        fillAndDisplay cfg env { s with consecutive_no_frames_found := 0 } evs
      else
        fillAndDisplay cfg env
          { s with
              consecutive_no_frames_found := 0,
              current_frame_paths := getFrames env.dirListing, frame_buffer := [],
              path_index := 0, buffer_index := 0 }
          (evs ++ [.resetOnPathsChanged])) := by
  simp only [framesPhase, hfp, Bool.false_eq_true, if_false]

/-- Frames present, buffer empty, every decode failing: the iteration
ends in the fill-failure backoff and displays nothing. -/
theorem framesPhase_all_fail (cfg : Config) (env : Env) (s : PState)
    (evs : List Event) (hfp : getFrames env.dirListing ≠ [])
    (hbuf : s.frame_buffer = []) (hcap : 0 < cfg.buffer_size)
    (hdec : ∀ p, env.decode p = none) :
    ∃ out, framesPhase cfg env s evs = .ok out ∧
      Event.fillFailBackoff ∈ out.events ∧
      out.events.countP Event.isDisplayTick = evs.countP Event.isDisplayTick := by
  have hfp2 : (getFrames env.dirListing).isEmpty = false := by
    simp [List.isEmpty_iff, hfp]
  rw [framesPhase_nonempty cfg env s evs hfp2]
  by_cases heq : getFrames env.dirListing = s.current_frame_paths
  · obtain ⟨out, fevs, hfd, hevents, hload, hbroke⟩ :=
      fillAndDisplay_all_fail cfg env { s with consecutive_no_frames_found := 0 } evs
        (by simpa using heq ▸ hfp) (by simpa using hbuf) hcap hdec
    refine ⟨out, by rw [if_pos heq]; exact hfd, ?_, ?_⟩
    · rw [hevents]
      simp
    · rw [hevents]
      simp [List.countP_append, countP_tick_zero_of_loads fevs hload,
        Event.isDisplayTick]
  · obtain ⟨out, fevs, hfd, hevents, hload, hbroke⟩ :=
      fillAndDisplay_all_fail cfg env
        { s with
            consecutive_no_frames_found := 0,
            current_frame_paths := getFrames env.dirListing, frame_buffer := [],
            path_index := 0, buffer_index := 0 }
        (evs ++ [.resetOnPathsChanged]) (by simpa using hfp) (by simp) hcap hdec
    refine ⟨out, by rw [if_neg heq]; exact hfd, ?_, ?_⟩
    · rw [hevents]
      simp
    · rw [hevents]
      simp [List.countP_append, countP_tick_zero_of_loads fevs hload,
        Event.isDisplayTick]

/-- C3 (amended): a frame set of size 0 never reaches the fill - the
loop's no-frames branch handles it first, backing off 1 s and retrying
with no load attempted (the fill operation itself, invoked on an empty
set, would raise a mod-by-zero, see the counterexample); and when a
fill over a non-empty set decodes zero images, `ensureFilled` returns an
ok empty result - not an exception - and the engine backs off 1 s and
retries instead of displaying. -/
theorem claim_C3_amended (cfg : Config) (env : Env) (s : PState) :
    (getFrames env.dirListing = [] → env.procRead = .ok false →
      ∃ out, step cfg env s = .ok out ∧
        Event.noFramesBackoff ∈ out.events ∧
        out.events.countP Event.isLoadEvent = 0 ∧
        out.events.countP Event.isDisplayTick = 0) ∧
    (getFrames env.dirListing ≠ [] → env.procRead = .ok false →
      s.frame_buffer = [] → 0 < cfg.buffer_size → (∀ p, env.decode p = none) →
      ∃ out, step cfg env s = .ok out ∧
        Event.fillFailBackoff ∈ out.events ∧
        out.events.countP Event.isDisplayTick = 0) := by
  constructor
  · intro hfp hread
    by_cases hlast : s.last_processing_state
    · obtain ⟨out, tail, hframes, hevents, hmem, htail⟩ :=
        framesPhase_noFrames cfg env
          { s with
              last_processing_state := false, consecutive_processing_checks := 0,
              current_frame_paths := [], frame_buffer := [],
              path_index := 0, buffer_index := 0 }
          [.checkSignal false, .resetOnFallingEdge] hfp
      refine ⟨out, by simp only [step, hread, hlast, ite_true]; exact hframes,
        by rw [hevents]; exact List.mem_append_right _ hmem, ?_, ?_⟩
      · rw [hevents, List.countP_eq_zero]
        intro ev hev
        rcases List.mem_append.mp hev with hev | hev
        · simp only [List.mem_cons, List.mem_singleton] at hev
          rcases hev with rfl | rfl | h
          · simp [Event.isLoadEvent]
          · simp [Event.isLoadEvent]
          · cases h
        · simp [(htail ev hev).1]
      · rw [hevents, List.countP_eq_zero]
        intro ev hev
        rcases List.mem_append.mp hev with hev | hev
        · simp only [List.mem_cons, List.mem_singleton] at hev
          rcases hev with rfl | rfl | h
          · simp [Event.isDisplayTick]
          · simp [Event.isDisplayTick]
          · cases h
        · simp [(htail ev hev).2]
    · obtain ⟨out, tail, hframes, hevents, hmem, htail⟩ :=
        framesPhase_noFrames cfg env s [.checkSignal false] hfp
      refine ⟨out, by simp only [step, hread, hlast, ite_false]; exact hframes,
        by rw [hevents]; exact List.mem_append_right _ hmem, ?_, ?_⟩
      · rw [hevents, List.countP_eq_zero]
        intro ev hev
        rcases List.mem_append.mp hev with hev | hev
        · simp only [List.mem_singleton] at hev
          subst hev
          simp [Event.isLoadEvent]
        · simp [(htail ev hev).1]
      · rw [hevents, List.countP_eq_zero]
        intro ev hev
        rcases List.mem_append.mp hev with hev | hev
        · simp only [List.mem_singleton] at hev
          subst hev
          simp [Event.isDisplayTick]
        · simp [(htail ev hev).2]
  · intro hfp hread hbuf hcap hdec
    by_cases hlast : s.last_processing_state
    · obtain ⟨out, hframes, hmem, hcount⟩ :=
        framesPhase_all_fail cfg env
          { s with
              last_processing_state := false, consecutive_processing_checks := 0,
              current_frame_paths := [], frame_buffer := [],
              path_index := 0, buffer_index := 0 }
          [.checkSignal false, .resetOnFallingEdge] hfp rfl hcap hdec
      exact ⟨out, by simp only [step, hread, hlast, ite_true]; exact hframes, hmem,
        by rw [hcount]; decide⟩
    · obtain ⟨out, hframes, hmem, hcount⟩ :=
        framesPhase_all_fail cfg env s [.checkSignal false] hfp hbuf hcap hdec
      exact ⟨out, by simp only [step, hread, hlast, ite_false]; exact hframes, hmem,
        by rw [hcount]; decide⟩

/-- C3 counterexample: the fill operation invoked on a frame set of
size 0 raises (Python mod-by-zero at line 235), rather than returning a
fill-failure result - the loop's no-frames branch is what keeps that
from happening. -/
theorem claim_C3_counterexample :
    ensureFilled (fun _ => none) [] 0 15 = .error .zeroDivision := rfl

/-- C3 witness: the two backoff scenarios at concrete inputs: an empty
directory, and a directory whose single frame never decodes. -/
theorem claim_C3_witness :
    (∃ out, step ⟨true, 15⟩ { envOneFrame with dirListing := [] } initState
        = .ok out ∧
      Event.noFramesBackoff ∈ out.events ∧
      out.events.countP Event.isLoadEvent = 0 ∧
      out.events.countP Event.isDisplayTick = 0) ∧
    (∃ out, step ⟨true, 15⟩ { envOneFrame with decode := fun _ => none } initState
        = .ok out ∧
      Event.fillFailBackoff ∈ out.events ∧
      out.events.countP Event.isDisplayTick = 0) :=
  ⟨(claim_C3_amended ⟨true, 15⟩ { envOneFrame with dirListing := [] } initState).1
      rfl rfl,
    (claim_C3_amended ⟨true, 15⟩ { envOneFrame with decode := fun _ => none }
        initState).2 (by decide) rfl rfl (by decide) (fun p => rfl)⟩

/-! ## Claim C6: headless operation -/

theorem Event.load_not_hw {ev : Event} (h : ev.isLoadEvent = true) :
    ev.isHardware = false := by
  cases ev <;> simp_all [Event.isLoadEvent, Event.isHardware]

/-- A hardware-free list is unchanged by filtering hardware events out. -/
theorem filter_hw_eq_self (evs : List Event)
    (h : ∀ ev ∈ evs, ev.isHardware = false) :
    evs.filter (fun ev => !ev.isHardware) = evs := by
  rw [List.filter_eq_self]
  intro ev hev
  simp [h ev hev]

/-- The display tail in headless mode against the same tail with
hardware: same state, same exit, and the headless trace is the hardware
trace with the `ShowImage` traffic removed. -/
theorem displayPhase_headless (n : Nat) (env : Env) (s : PState) (evs : List Event)
    (hevs : ∀ ev ∈ evs, ev.isHardware = false) :
    (displayPhase ⟨false, n⟩ env s evs).state = (displayPhase ⟨true, n⟩ env s evs).state ∧
    (displayPhase ⟨false, n⟩ env s evs).brokeOut =
      (displayPhase ⟨true, n⟩ env s evs).brokeOut ∧
    (displayPhase ⟨false, n⟩ env s evs).events =
      ((displayPhase ⟨true, n⟩ env s evs).events).filter (fun ev => !ev.isHardware) ∧
    (∀ ev ∈ (displayPhase ⟨false, n⟩ env s evs).events, ev.isHardware = false) := by
  unfold displayPhase
  cases h : pyindex s.frame_buffer s.buffer_index with
  | error e =>
    refine ⟨rfl, rfl, ?_, ?_⟩
    · rw [List.filter_append, filter_hw_eq_self evs hevs]
      rfl
    · intro ev hev
      rcases List.mem_append.mp hev with hev | hev
      · exact hevs ev hev
      · simp only [List.mem_singleton] at hev
        subst hev
        rfl
  | ok img =>
    have hdF : display_image_object ⟨false, n⟩ env.showImageFails img = [] := rfl
    refine ⟨rfl, rfl, ?_, ?_⟩
    · dsimp only
      rw [hdF, List.append_nil, List.filter_append, List.filter_append,
        List.filter_append, filter_hw_eq_self evs hevs]
      have hdT : (display_image_object ⟨true, n⟩ env.showImageFails img).filter
          (fun ev => !ev.isHardware) = [] := by
        cases env.showImageFails <;> rfl
      rw [hdT, List.append_nil]
      rfl
    · dsimp only
      rw [hdF, List.append_nil]
      intro ev hev
      rcases List.mem_append.mp hev with hev | hev
      · rcases List.mem_append.mp hev with hev | hev
        · exact hevs ev hev
        · simp only [List.mem_singleton] at hev
          subst hev
          rfl
      · simp only [List.mem_singleton] at hev
        subst hev
        rfl

/-- Fill-and-display in headless mode against hardware mode. -/
theorem fillAndDisplay_headless (n : Nat) (env : Env) (s : PState) (evs : List Event)
    (hne : s.current_frame_paths ≠ [])
    (hevs : ∀ ev ∈ evs, ev.isHardware = false) :
    ∃ outH outL, fillAndDisplay ⟨false, n⟩ env s evs = .ok outH ∧
      fillAndDisplay ⟨true, n⟩ env s evs = .ok outL ∧
      outH.state = outL.state ∧ outH.brokeOut = outL.brokeOut ∧
      outH.events = outL.events.filter (fun ev => !ev.isHardware) ∧
      (∀ ev ∈ outH.events, ev.isHardware = false) := by
  have hevload : ∀ (fevs : List Event), (∀ ev ∈ fevs, ev.isLoadEvent = true) →
      ∀ ev ∈ evs ++ fevs, ev.isHardware = false := by
    intro fevs hload ev hev
    rcases List.mem_append.mp hev with hev | hev
    · exact hevs ev hev
    · exact Event.load_not_hw (hload ev hev)
  unfold fillAndDisplay
  by_cases hb : s.frame_buffer.isEmpty
  · obtain ⟨imgs, cur, fevs, hfill, hload⟩ :=
      ensureFilled_ok env.decode s.current_frame_paths s.path_index n hne
    simp only [hb, ite_true, hfill]
    by_cases himgs : imgs.isEmpty
    · simp only [himgs, ite_true]
      have hall : ∀ ev ∈ evs ++ fevs ++ [Event.fillFailBackoff],
          ev.isHardware = false := by
        intro ev hev
        rcases List.mem_append.mp hev with hev | hev
        · exact hevload fevs hload ev hev
        · simp only [List.mem_singleton] at hev
          subst hev
          rfl
      exact ⟨_, _, rfl, rfl, rfl, rfl, (filter_hw_eq_self _ hall).symm, hall⟩
    · simp only [himgs, ite_false]
      obtain ⟨h1, h2, h3, h4⟩ := displayPhase_headless n env
        { s with frame_buffer := imgs, buffer_index := 0, path_index := cur }
        (evs ++ fevs) (hevload fevs hload)
      exact ⟨_, _, rfl, rfl, h1, h2, h3, h4⟩
  · simp only [hb, ite_false]
    obtain ⟨h1, h2, h3, h4⟩ := displayPhase_headless n env s evs hevs
    exact ⟨_, _, rfl, rfl, h1, h2, h3, h4⟩

/-- The frames phase in headless mode against hardware mode. -/
theorem framesPhase_headless (n : Nat) (env : Env) (s : PState) (evs : List Event)
    (hevs : ∀ ev ∈ evs, ev.isHardware = false) :
    ∃ outH outL, framesPhase ⟨false, n⟩ env s evs = .ok outH ∧
      framesPhase ⟨true, n⟩ env s evs = .ok outL ∧
      outH.state = outL.state ∧ outH.brokeOut = outL.brokeOut ∧
      outH.events = outL.events.filter (fun ev => !ev.isHardware) ∧
      (∀ ev ∈ outH.events, ev.isHardware = false) := by
  by_cases hfp : (getFrames env.dirListing).isEmpty
  · by_cases hcur : s.current_frame_paths.isEmpty
    · have hall : ∀ ev ∈ evs ++ [Event.noFramesBackoff], ev.isHardware = false := by
        intro ev hev
        rcases List.mem_append.mp hev with hev | hev
        · exact hevs ev hev
        · simp only [List.mem_singleton] at hev
          subst hev
          rfl
      refine ⟨⟨{ s with
            current_frame_path := none,
            consecutive_no_frames_found := s.consecutive_no_frames_found + 1 },
          evs ++ [.noFramesBackoff], false⟩,
        ⟨{ s with
            current_frame_path := none,
            consecutive_no_frames_found := s.consecutive_no_frames_found + 1 },
          evs ++ [.noFramesBackoff], false⟩,
        ?_, ?_, rfl, rfl, (filter_hw_eq_self _ hall).symm, hall⟩
      · simp only [framesPhase, hfp, hcur, ite_true]
      · simp only [framesPhase, hfp, hcur, ite_true]
    · have hall : ∀ ev ∈ evs ++ [Event.clearOnFramesGone, Event.noFramesBackoff],
          ev.isHardware = false := by
        intro ev hev
        rcases List.mem_append.mp hev with hev | hev
        · exact hevs ev hev
        · simp only [List.mem_cons, List.mem_singleton] at hev
          rcases hev with rfl | rfl | h
          · rfl
          · rfl
          · cases h
      refine ⟨⟨{ s with
            current_frame_path := none, current_frame_paths := [],
            frame_buffer := [], path_index := 0, buffer_index := 0,
            consecutive_no_frames_found := s.consecutive_no_frames_found + 1 },
          evs ++ [.clearOnFramesGone, .noFramesBackoff], false⟩,
        ⟨{ s with
            current_frame_path := none, current_frame_paths := [],
            frame_buffer := [], path_index := 0, buffer_index := 0,
            consecutive_no_frames_found := s.consecutive_no_frames_found + 1 },
          evs ++ [.clearOnFramesGone, .noFramesBackoff], false⟩,
        ?_, ?_, rfl, rfl, (filter_hw_eq_self _ hall).symm, hall⟩
      · simp [framesPhase, hfp, hcur]
      · simp [framesPhase, hfp, hcur]
  · have hfp2 : (getFrames env.dirListing).isEmpty = false := by
      simpa using hfp
    have hne : getFrames env.dirListing ≠ [] := by
      simpa [List.isEmpty_iff] using hfp
    rw [framesPhase_nonempty ⟨false, n⟩ env s evs hfp2,
      framesPhase_nonempty ⟨true, n⟩ env s evs hfp2]
    by_cases heq : getFrames env.dirListing = s.current_frame_paths
    · rw [if_pos heq, if_pos heq]
      exact fillAndDisplay_headless n env _ evs (by simpa using heq ▸ hne) hevs
    · rw [if_neg heq, if_neg heq]
      refine fillAndDisplay_headless n env _ _ (by simpa using hne) ?_
      intro ev hev
      rcases List.mem_append.mp hev with hev | hev
      · exact hevs ev hev
      · simp only [List.mem_singleton] at hev
        subst hev
        rfl

/-- C6 (amended): if display-hardware initialisation fails the engine
runs headless for good: every iteration executes the same pause check,
resolution, buffering and scheduling as with hardware, producing the
identical next state and identical trace minus the `ShowImage` traffic
- zero calls reach `ShowImage`.  Progress is observable through the
buffer read cursor advancing; the read-only "currently displayed frame
reference" (`current_frame_path`) is, however, not updated by the
buffered display path in either mode (see the counterexample), so it
does not advance as frames are logically played. -/
theorem claim_C6_amended (n : Nat) (env : Env) (s : PState) :
    ∃ outH outL, step ⟨false, n⟩ env s = .ok outH ∧
      step ⟨true, n⟩ env s = .ok outL ∧
      outH.state = outL.state ∧ outH.brokeOut = outL.brokeOut ∧
      outH.events = outL.events.filter (fun ev => !ev.isHardware) ∧
      (∀ ev ∈ outH.events, ev.isHardware = false) := by
  cases hr : env.procRead with
  | error e =>
    have hall : ∀ ev ∈ [Event.signalReadFailed], ev.isHardware = false := by
      intro ev hev
      simp only [List.mem_singleton] at hev
      subst hev
      rfl
    exact ⟨⟨s, [.signalReadFailed], false⟩, ⟨s, [.signalReadFailed], false⟩,
      by simp [step, hr], by simp [step, hr], rfl, rfl,
      (filter_hw_eq_self _ hall).symm, hall⟩
  | ok b =>
    cases b with
    | true =>
      have hall : ∀ ev ∈ [Event.checkSignal true, Event.pauseSleep],
          ev.isHardware = false := by
        intro ev hev
        simp only [List.mem_cons, List.mem_singleton] at hev
        rcases hev with rfl | rfl | h
        · rfl
        · rfl
        · cases h
      by_cases hlast : s.last_processing_state
      · exact ⟨⟨{ s with
            consecutive_processing_checks := s.consecutive_processing_checks + 1 },
            [.checkSignal true, .pauseSleep], false⟩,
          ⟨{ s with
            consecutive_processing_checks := s.consecutive_processing_checks + 1 },
            [.checkSignal true, .pauseSleep], false⟩,
          by simp [step, hr, hlast], by simp [step, hr, hlast], rfl, rfl,
          (filter_hw_eq_self _ hall).symm, hall⟩
      · exact ⟨⟨{ s with
            last_processing_state := true, consecutive_processing_checks := 0 },
            [.checkSignal true, .pauseSleep], false⟩,
          ⟨{ s with
            last_processing_state := true, consecutive_processing_checks := 0 },
            [.checkSignal true, .pauseSleep], false⟩,
          by simp [step, hr, hlast], by simp [step, hr, hlast], rfl, rfl,
          (filter_hw_eq_self _ hall).symm, hall⟩
    | false =>
      by_cases hlast : s.last_processing_state
      · obtain ⟨outH, outL, hH, hL, h1, h2, h3, h4⟩ :=
          framesPhase_headless n env
            { s with
                last_processing_state := false, consecutive_processing_checks := 0,
                current_frame_paths := [], frame_buffer := [],
                path_index := 0, buffer_index := 0 }
            [.checkSignal false, .resetOnFallingEdge]
            (by
              intro ev hev
              simp only [List.mem_cons, List.mem_singleton] at hev
              rcases hev with rfl | rfl | h
              · rfl
              · rfl
              · cases h)
        refine ⟨outH, outL, ?_, ?_, h1, h2, h3, h4⟩
        · simp only [step, hr, hlast, ite_true]
          exact hH
        · simp only [step, hr, hlast, ite_true]
          exact hL
      · obtain ⟨outH, outL, hH, hL, h1, h2, h3, h4⟩ :=
          framesPhase_headless n env s [.checkSignal false]
            (by
              intro ev hev
              simp only [List.mem_singleton] at hev
              subst hev
              rfl)
        refine ⟨outH, outL, ?_, ?_, h1, h2, h3, h4⟩
        · simp only [step, hr, hlast, ite_false]
          exact hH
        · simp only [step, hr, hlast, ite_false]
          exact hL

/-- C6 counterexample: headless, one frame logically played (a display
tick with zero hardware events, read cursor advanced), yet the
"currently displayed frame reference" diagnostic stays `None` - it does
not advance. -/
theorem claim_C6_counterexample :
    (stepEvents ⟨false, 15⟩ envOneFrame initState).any Event.isDisplayTick = true ∧
    (stepEvents ⟨false, 15⟩ envOneFrame initState).any Event.isHardware = false ∧
    (stepState ⟨false, 15⟩ envOneFrame initState).buffer_index = 1 ∧
    (stepState ⟨false, 15⟩ envOneFrame initState).current_frame_path = none := by
  refine ⟨?_, ?_, ?_, ?_⟩ <;> decide

/-- C6 witness: the amended statement at a concrete iteration. -/
theorem claim_C6_witness :
    ∃ outH outL, step ⟨false, 15⟩ envOneFrame initState = .ok outH ∧
      step ⟨true, 15⟩ envOneFrame initState = .ok outL ∧
      outH.state = outL.state ∧ outH.brokeOut = outL.brokeOut ∧
      outH.events = outL.events.filter (fun ev => !ev.isHardware) ∧
      (∀ ev ∈ outH.events, ev.isHardware = false) :=
  claim_C6_amended 15 envOneFrame initState

/-! ## Claim C10: the buffer/cursor invariant -/

/-- The implicit loop invariant: an empty buffer has read cursor 0, and
a non-empty buffer has its read cursor strictly inside it. -/
def BufInv (s : PState) : Prop :=
  (s.frame_buffer = [] → s.buffer_index = 0) ∧
  (s.frame_buffer ≠ [] → s.buffer_index < s.frame_buffer.length)

theorem pyindex_ok {α : Type} (l : List α) (i : Nat) (h : i < l.length) :
    ∃ x, pyindex l i = .ok x := by
  simp only [pyindex]
  rw [List.get?_eq_get h]
  exact ⟨_, rfl⟩

theorem Event.load_not_idx {ev : Event} (h : ev.isLoadEvent = true) :
    ev ≠ Event.indexErrorRecovery := by
  cases ev <;> simp_all [Event.isLoadEvent]

/-- Under the invariant, the display tail indexes in bounds: no
`IndexError` recovery runs, and the invariant is preserved. -/
theorem displayPhase_inv (cfg : Config) (env : Env) (s : PState) (evs : List Event)
    (hlt : s.buffer_index < s.frame_buffer.length)
    (hevs : Event.indexErrorRecovery ∉ evs) :
    BufInv (displayPhase cfg env s evs).state ∧
    Event.indexErrorRecovery ∉ (displayPhase cfg env s evs).events := by
  obtain ⟨img, hok⟩ := pyindex_ok s.frame_buffer s.buffer_index hlt
  unfold displayPhase
  rw [hok]
  dsimp only
  constructor
  · by_cases hend : s.frame_buffer.length ≤ s.buffer_index + 1
    · simp only [hend, ite_true]
      exact ⟨fun _ => rfl, fun h => absurd rfl h⟩
    · simp only [hend, ite_false]
      refine ⟨fun habs => ?_, fun _ => ?_⟩
      · have habs2 : s.frame_buffer = [] := habs
        rw [habs2] at hlt
        exact absurd hlt (by simp)
      · show s.buffer_index + 1 < s.frame_buffer.length
        omega
  · intro habs
    rcases List.mem_append.mp habs with habs | habs
    · rcases List.mem_append.mp habs with habs | habs
      · rcases List.mem_append.mp habs with habs | habs
        · exact hevs habs
        · simp only [List.mem_singleton] at habs
          exact Event.noConfusion habs
      · have h2 := (display_image_object_events cfg env.showImageFails img _ habs).2.2.2
        exact absurd h2 (by simp [Event.isHardware])
    · simp only [List.mem_singleton] at habs
      exact Event.noConfusion habs

/-- Under the invariant, fill-and-display preserves it and never runs
the `IndexError` recovery. -/
theorem fillAndDisplay_inv (cfg : Config) (env : Env) (s : PState) (evs : List Event)
    (hne : s.current_frame_paths ≠ []) (hinv : BufInv s)
    (hevs : Event.indexErrorRecovery ∉ evs) :
    ∃ out, fillAndDisplay cfg env s evs = .ok out ∧ BufInv out.state ∧
      Event.indexErrorRecovery ∉ out.events := by
  unfold fillAndDisplay
  by_cases hb : s.frame_buffer.isEmpty
  · obtain ⟨imgs, cur, fevs, hfill, hload⟩ :=
      ensureFilled_ok env.decode s.current_frame_paths s.path_index cfg.buffer_size hne
    simp only [hb, ite_true, hfill]
    have hfevs : Event.indexErrorRecovery ∉ evs ++ fevs := by
      intro habs
      rcases List.mem_append.mp habs with habs | habs
      · exact hevs habs
      · exact Event.load_not_idx (hload _ habs) rfl
    by_cases himgs : imgs.isEmpty
    · simp only [himgs, ite_true]
      refine ⟨_, rfl, ⟨fun _ => rfl, ?_⟩, ?_⟩
      · intro habs
        exact absurd (List.isEmpty_iff.mp himgs) habs
      · intro habs
        rcases List.mem_append.mp habs with habs | habs
        · exact hfevs habs
        · simp only [List.mem_singleton] at habs
          exact Event.noConfusion habs
    · simp only [himgs, ite_false]
      have hlt : (0 : Nat) < imgs.length := by
        have : imgs ≠ [] := by simpa [List.isEmpty_iff] using himgs
        exact List.length_pos.mpr this
      obtain ⟨h1, h2⟩ := displayPhase_inv cfg env
        { s with frame_buffer := imgs, buffer_index := 0, path_index := cur }
        (evs ++ fevs) (by simpa using hlt) hfevs
      exact ⟨_, rfl, h1, h2⟩
  · have hne2 : s.frame_buffer ≠ [] := by simpa [List.isEmpty_iff] using hb
    simp only [hb, ite_false]
    obtain ⟨h1, h2⟩ := displayPhase_inv cfg env s evs (hinv.2 hne2) hevs
    exact ⟨_, rfl, h1, h2⟩

/-- Under the invariant, the frames phase preserves it and never runs
the `IndexError` recovery. -/
theorem framesPhase_inv (cfg : Config) (env : Env) (s : PState) (evs : List Event)
    (hinv : BufInv s) (hevs : Event.indexErrorRecovery ∉ evs) :
    ∃ out, framesPhase cfg env s evs = .ok out ∧ BufInv out.state ∧
      Event.indexErrorRecovery ∉ out.events := by
  by_cases hfp : (getFrames env.dirListing).isEmpty
  · by_cases hcur : s.current_frame_paths.isEmpty
    · refine ⟨⟨{ s with
          current_frame_path := none,
          consecutive_no_frames_found := s.consecutive_no_frames_found + 1 },
          evs ++ [.noFramesBackoff], false⟩,
        by simp only [framesPhase, hfp, hcur, ite_true], ⟨hinv.1, hinv.2⟩, ?_⟩
      intro habs
      rcases List.mem_append.mp habs with habs | habs
      · exact hevs habs
      · simp only [List.mem_singleton] at habs
        exact Event.noConfusion habs
    · refine ⟨⟨{ s with
          current_frame_path := none, current_frame_paths := [],
          frame_buffer := [], path_index := 0, buffer_index := 0,
          consecutive_no_frames_found := s.consecutive_no_frames_found + 1 },
          evs ++ [.clearOnFramesGone, .noFramesBackoff], false⟩,
        by simp [framesPhase, hfp, hcur], ⟨fun _ => rfl, fun h => absurd rfl h⟩, ?_⟩
      intro habs
      rcases List.mem_append.mp habs with habs | habs
      · exact hevs habs
      · simp only [List.mem_cons, List.mem_singleton] at habs
        rcases habs with h | h | h
        · exact Event.noConfusion h
        · exact Event.noConfusion h
        · cases h
  · have hfp2 : (getFrames env.dirListing).isEmpty = false := by simpa using hfp
    have hne : getFrames env.dirListing ≠ [] := by
      simpa [List.isEmpty_iff] using hfp
    rw [framesPhase_nonempty cfg env s evs hfp2]
    by_cases heq : getFrames env.dirListing = s.current_frame_paths
    · rw [if_pos heq]
      exact fillAndDisplay_inv cfg env _ evs (by simpa using heq ▸ hne)
        ⟨hinv.1, hinv.2⟩ hevs
    · rw [if_neg heq]
      refine fillAndDisplay_inv cfg env _ _ (by simpa using hne)
        ⟨fun _ => rfl, fun h => absurd rfl h⟩ ?_
      intro habs
      rcases List.mem_append.mp habs with habs | habs
      · exact hevs habs
      · simp only [List.mem_singleton] at habs
        exact Event.noConfusion habs

/-- C10: the invariant - empty buffer implies read cursor 0, non-empty
buffer implies the cursor is in bounds - holds at loop entry and is
preserved by every iteration, and under it the defensive `IndexError`
recovery branch never runs: every buffer indexing is in bounds. -/
theorem claim_C10 (cfg : Config) (env : Env) (s : PState) (hinv : BufInv s) :
    BufInv initState ∧
    ∃ out, step cfg env s = .ok out ∧ BufInv out.state ∧
      Event.indexErrorRecovery ∉ out.events := by
  refine ⟨⟨fun _ => rfl, fun h => absurd rfl h⟩, ?_⟩
  cases hr : env.procRead with
  | error e =>
    refine ⟨⟨s, [.signalReadFailed], false⟩, by simp [step, hr],
      ⟨hinv.1, hinv.2⟩, ?_⟩
    intro habs
    simp only [List.mem_singleton] at habs
    exact Event.noConfusion habs
  | ok b =>
    cases b with
    | true =>
      have hnoidx : Event.indexErrorRecovery ∉
          [Event.checkSignal true, Event.pauseSleep] := by
        intro habs
        simp only [List.mem_cons, List.mem_singleton] at habs
        rcases habs with h | h | h
        · exact Event.noConfusion h
        · exact Event.noConfusion h
        · cases h
      by_cases hlast : s.last_processing_state
      · exact ⟨⟨{ s with
            consecutive_processing_checks := s.consecutive_processing_checks + 1 },
            [.checkSignal true, .pauseSleep], false⟩,
          by simp [step, hr, hlast], ⟨hinv.1, hinv.2⟩, hnoidx⟩
      · exact ⟨⟨{ s with
            last_processing_state := true, consecutive_processing_checks := 0 },
            [.checkSignal true, .pauseSleep], false⟩,
          by simp [step, hr, hlast], ⟨hinv.1, hinv.2⟩, hnoidx⟩
    | false =>
      by_cases hlast : s.last_processing_state
      · obtain ⟨out, hframes, h1, h2⟩ := framesPhase_inv cfg env
          { s with
              last_processing_state := false, consecutive_processing_checks := 0,
              current_frame_paths := [], frame_buffer := [],
              path_index := 0, buffer_index := 0 }
          [.checkSignal false, .resetOnFallingEdge]
          ⟨fun _ => rfl, fun h => absurd rfl h⟩
          (by
            intro habs
            simp only [List.mem_cons, List.mem_singleton] at habs
            rcases habs with h | h | h
            · exact Event.noConfusion h
            · exact Event.noConfusion h
            · cases h)
        exact ⟨out, by simp only [step, hr, hlast, ite_true]; exact hframes, h1, h2⟩
      · obtain ⟨out, hframes, h1, h2⟩ := framesPhase_inv cfg env s [.checkSignal false]
          ⟨hinv.1, hinv.2⟩
          (by
            intro habs
            simp only [List.mem_singleton] at habs
            exact Event.noConfusion habs)
        exact ⟨out, by simp only [step, hr, hlast, ite_false]; exact hframes, h1, h2⟩

/-- C10 witness: the invariant and in-bounds indexing at a concrete
healthy iteration from the entry state. -/
theorem claim_C10_witness :
    BufInv initState ∧
    ∃ out, step ⟨true, 15⟩ envOneFrame initState = .ok out ∧ BufInv out.state ∧
      Event.indexErrorRecovery ∉ out.events :=
  claim_C10 ⟨true, 15⟩ envOneFrame initState
    ⟨fun _ => rfl, fun h => absurd rfl h⟩
